import Mathlib

/-!
Verification development for the QuestAIsle Turn Synchronization Engine.

The definitions below are a shallow embedding of the TypeScript sources:
  * `src/types/game.ts` — the typed value model (`GameValuePayload`, value
    definitions, memory entries, steps, saves);
  * `src/utils/prompting.ts` — `coerceValueForType`, `applyChangesToValues`,
    `applyChangesToMemories` and their helpers;
  * `src/utils/openai.ts` — the streaming JSON field extractors;
  * `src/hooks/useGameTurn.ts` — the turn orchestration (`mutationFn`).

JavaScript numbers are modelled by `ℚ` for the finite values, with `Option ℚ`
(`none` = NaN or ±Infinity) wherever the source can produce a non-finite
number.  The ECMAScript `Number(string)` conversion is modelled for decimal
literals (sign, digits, decimal point, exponent, surrounding whitespace,
empty string ↦ 0); hexadecimal/octal/binary literal forms are outside the
fragment exercised here and map to NaN.  Number→string formatting is decimal
with up to 17 fractional digits, standing in for the double shortest-repr
printing; no theorem below depends on its exact digits.
-/

namespace QuestAIsle

/-- Scalar leaf of a value payload: string, (finite) number or boolean,
mirroring `scalarValueSchema` in `src/types/game.ts`. -/
inductive ScalarValue where
  | str (s : String)
  | num (q : ℚ)
  | bool (b : Bool)
deriving DecidableEq, Repr

/-- One entry of an object payload: a scalar or a list of scalars,
mirroring the record value type of `valuePayloadSchema`. -/
inductive ObjEntry where
  | scalar (v : ScalarValue)
  | arr (xs : List ScalarValue)
deriving DecidableEq, Repr

/-- `GameValuePayload` from `src/types/game.ts`: a scalar, a list of scalars,
or a string-keyed record of scalars / scalar lists (modelled as an
association list in insertion order, matching `Object.entries`). -/
inductive GameValuePayload where
  | scalar (v : ScalarValue)
  | arr (xs : List ScalarValue)
  | obj (entries : List (String × ObjEntry))
deriving DecidableEq, Repr

/-- The eight value types of `valueTypeSchema`. -/
inductive GameValueType where
  | boolean | integer | float | number | string | text | array | object
deriving DecidableEq, Repr

/-- `GameValueDefinition` (the fields used by the coercion engine). -/
structure GameValueDefinition where
  id : String
  label : String
  type : GameValueType
  min : Option ℚ := none
  max : Option ℚ := none
  maxLength : Option ℕ := none
  defaultValue : Option GameValuePayload := none
deriving DecidableEq, Repr

/-! ### JavaScript numeric model -/

/-- Whitespace for the purposes of `Number()` trimming. -/
def isWsChar (c : Char) : Bool :=
  c = ' ' || c = '\t' || c = '\n' || c = '\r' || c = '\x0b' || c = '\x0c'

def isDigitChar (c : Char) : Bool :=
  '0' ≤ c && c ≤ '9'

/-- JS `String.prototype.trim` (same whitespace class as the `Number`
trimming above). -/
def trimString (s : String) : String :=
  String.mk (((s.toList.dropWhile isWsChar).reverse.dropWhile isWsChar).reverse)

/-- ASCII lower-casing, modelling `toLowerCase` on the inputs compared
against the ASCII keyword lists of the boolean branch. -/
def lowerChar (c : Char) : Char :=
  if 'A' ≤ c ∧ c ≤ 'Z' then Char.ofNat (c.toNat + 32) else c

def lowerString (s : String) : String :=
  String.mk (s.toList.map lowerChar)

def digitVal (c : Char) : ℕ := c.toNat - '0'.toNat

def natOfDigits (ds : List Char) : ℕ :=
  ds.foldl (fun acc c => 10 * acc + digitVal c) 0

/-- Exponent part of a decimal literal (`e±ddd`); `none` on malformed input. -/
def parseExponent (cs : List Char) : Option ℤ :=
  match cs with
  | [] => some 0
  | e :: rest =>
    if e = 'e' || e = 'E' then
      let signAndRest : ℤ × List Char :=
        match rest with
        | '+' :: r => (1, r)
        | '-' :: r => (-1, r)
        | r => (1, r)
      let ds := signAndRest.2.takeWhile isDigitChar
      let rest3 := signAndRest.2.drop ds.length
      if ds = [] || rest3 ≠ [] then none
      else some (signAndRest.1 * (natOfDigits ds : ℤ))
    else none

/-- Unsigned decimal literal (`ddd`, `ddd.ddd`, `.ddd`, optional exponent).
`none` means NaN/Infinity (non-finite). -/
def parseUnsignedDecimal (cs : List Char) : Option ℚ :=
  if cs = "Infinity".toList then none
  else
    let ip := cs.takeWhile isDigitChar
    let r1 := cs.drop ip.length
    let fpR3 : List Char × List Char :=
      match r1 with
      | '.' :: r2 => (r2.takeWhile isDigitChar, r2.drop (r2.takeWhile isDigitChar).length)
      | _ => ([], r1)
    if ip = [] && fpR3.1 = [] then none
    else
      match parseExponent fpR3.2 with
      | none => none
      | some e =>
        let base : ℚ :=
          (natOfDigits ip : ℚ) + (natOfDigits fpR3.1 : ℚ) / ((10 : ℚ) ^ fpR3.1.length)
        some (base * (10 : ℚ) ^ e)

/-- ECMAScript ToNumber on strings (decimal fragment): trim whitespace,
empty ↦ 0, optional sign, decimal literal; otherwise NaN (`none`). -/
def strToNumber (s : String) : Option ℚ :=
  let cs := ((s.toList.dropWhile isWsChar).reverse.dropWhile isWsChar).reverse
  match cs with
  | [] => some 0
  | '+' :: rest => parseUnsignedDecimal rest
  | '-' :: rest => (parseUnsignedDecimal rest).map (fun q => -q)
  | _ => parseUnsignedDecimal cs

/-- `Math.trunc`: round toward zero. -/
def ratTrunc (q : ℚ) : ℚ :=
  if 0 ≤ q then ((⌊q⌋ : ℤ) : ℚ) else ((⌈q⌉ : ℤ) : ℚ)

/-- Fractional decimal digits of `q` (`0 ≤ q < 1`), up to `fuel` digits,
stopping at an exact zero remainder. -/
def fracDigits : ℕ → ℚ → List Char
  | 0, _ => []
  | fuel + 1, q =>
    if q = 0 then []
    else
      let q10 := q * 10
      let d : ℤ := ⌊q10⌋
      Char.ofNat ('0'.toNat + d.toNat) :: fracDigits fuel (q10 - (d : ℚ))

/-- Decimal rendering of a nonnegative rational (JS number→string stand-in). -/
def jsNumToStringNonneg (q : ℚ) : String :=
  let ip := (⌊q⌋).toNat
  let fr := q - (ip : ℚ)
  if fr = 0 then toString ip
  else toString ip ++ "." ++ String.mk (fracDigits 17 fr)

/-- JS number→string conversion (decimal form). -/
def jsNumToString (q : ℚ) : String :=
  if q < 0 then "-" ++ jsNumToStringNonneg (-q) else jsNumToStringNonneg q

/-- ECMAScript ToString on a scalar (used by `Array.prototype.join`). -/
def jsStringOfScalar : ScalarValue → String
  | .str s => s
  | .num q => jsNumToString q
  | .bool b => if b then "true" else "false"

/-- ECMAScript ToNumber on a well-typed payload: numbers are themselves,
booleans 0/1, strings parsed, arrays via their `join(",")` string,
plain objects via `"[object Object]"` (always NaN). -/
def jsToNumber : GameValuePayload → Option ℚ
  | .scalar (.num q) => some q
  | .scalar (.bool b) => some (if b then 1 else 0)
  | .scalar (.str s) => strToNumber s
  | .arr xs => strToNumber (String.intercalate "," (xs.map jsStringOfScalar))
  | .obj _ => none

/-- JS truthiness on a well-typed payload (payload numbers are finite, so
only `0` is falsy among them; arrays and objects are always truthy). -/
def jsTruthy : GameValuePayload → Bool
  | .scalar (.str s) => if s = "" then false else true
  | .scalar (.num q) => if q = 0 then false else true
  | .scalar (.bool b) => b
  | .arr _ => true
  | .obj _ => true

/-! ### JSON serialization (`safeStringify` = `JSON.stringify`) -/

def hexDigitChar (n : ℕ) : Char :=
  if n < 10 then Char.ofNat ('0'.toNat + n) else Char.ofNat ('a'.toNat + (n - 10))

def hex4 (n : ℕ) : String :=
  String.mk [hexDigitChar (n / 4096 % 16), hexDigitChar (n / 256 % 16),
             hexDigitChar (n / 16 % 16), hexDigitChar (n % 16)]

def jsonEscapeChar (c : Char) : String :=
  if c = '"' then "\\\""
  else if c = '\\' then "\\\\"
  else if c = '\n' then "\\n"
  else if c = '\r' then "\\r"
  else if c = '\t' then "\\t"
  else if c = '\x08' then "\\b"
  else if c = '\x0c' then "\\f"
  else if c.toNat < 32 then "\\u" ++ hex4 c.toNat
  else String.mk [c]

def jsonQuote (s : String) : String :=
  "\"" ++ String.join (s.toList.map jsonEscapeChar) ++ "\""

def stringifyScalar : ScalarValue → String
  | .str s => jsonQuote s
  | .num q => jsNumToString q
  | .bool b => if b then "true" else "false"

def stringifyObjEntry : ObjEntry → String
  | .scalar v => stringifyScalar v
  | .arr xs => "[" ++ String.intercalate "," (xs.map stringifyScalar) ++ "]"

/-- `safeStringify` from `src/utils/prompting.ts` (JSON.stringify on the
well-typed payloads; such values always serialize, so the catch branch is
unreachable). -/
def safeStringify : GameValuePayload → String
  | .scalar v => stringifyScalar v
  | .arr xs => "[" ++ String.intercalate "," (xs.map stringifyScalar) ++ "]"
  | .obj es =>
    "\x7b" ++
      String.intercalate ","
        (es.map (fun kv => jsonQuote kv.1 ++ ":" ++ stringifyObjEntry kv.2)) ++
      "\x7d"

/-! ### Coercion engine (`src/utils/prompting.ts`) -/

/-- `getFallbackValue`: the per-type zero value. -/
def getFallbackValue : GameValueType → GameValuePayload
  | .array => .arr []
  | .object => .obj []
  | .boolean => .scalar (.bool false)
  | .integer => .scalar (.num 0)
  | .float => .scalar (.num 0)
  | .number => .scalar (.num 0)
  | .string => .scalar (.str "")
  | .text => .scalar (.str "")

/-- `cloneValuePayload`: a structural copy; in a pure value model the copy
is the value itself. -/
def cloneValuePayload (v : GameValuePayload) : GameValuePayload := v

/-- `toScalar`: scalars pass through; arrays/objects are serialized.  (The
`null`/`undefined` branch of the source cannot receive a well-typed
payload.) -/
def toScalar : GameValuePayload → ScalarValue
  | .scalar v => v
  | .arr xs => .str (safeStringify (.arr xs))
  | .obj es => .str (safeStringify (.obj es))

/-- `sanitizeArray`: a non-array becomes a one-element array; an array keeps
its entries (the source maps `toScalar` over them, which is the identity on
the scalars a well-typed payload contains). -/
def sanitizeArray : GameValuePayload → List ScalarValue
  | .arr xs => xs
  | v => [toScalar v]

/-- `sanitizeObject`: a non-record is wrapped as `{ value: … }`; a record
keeps its entries (per entry the source maps arrays through `toScalar`
element-wise and scalars through `toScalar`, both the identity on well-typed
entries; the nested-object branch is unreachable for well-typed payloads). -/
def sanitizeObject : GameValuePayload → List (String × ObjEntry)
  | .obj es => es
  | .arr xs => [("value", .arr (sanitizeArray (.arr xs)))]
  | .scalar v => [("value", .scalar (toScalar (.scalar v)))]

/-- `def.defaultValue ?? getFallbackValue(def.type)`. -/
def resolvedDefault (d : GameValueDefinition) : GameValuePayload :=
  d.defaultValue.getD (getFallbackValue d.type)

/-- The clamping part of `clampNumber` (already-finite candidate). -/
def clampQ (d : GameValueDefinition) (n : ℚ) : ℚ :=
  let n1 := match d.min with | some a => max n a | none => n
  match d.max with | some b => min n1 b | none => n1

/-- `coerceValueForType` from `src/utils/prompting.ts`, lines 486–553.
`none` plays the role of `undefined`/`null`. -/
def coerceValueForType (d : GameValueDefinition) (value : Option GameValuePayload) :
    GameValuePayload :=
  match value with
  | none => cloneValuePayload (resolvedDefault d)
  | some v =>
    match d.type with
    | .integer =>
      -- const coerced = Math.trunc(Number(value)); const clamped = clampNumber(coerced)
      let clamped : GameValuePayload :=
        match (jsToNumber v).map ratTrunc with
        | none => cloneValuePayload (resolvedDefault d)
        | some n => .scalar (.num (clampQ d n))
      -- return typeof clamped === 'number' ? Math.trunc(clamped) : clamped
      match clamped with
      | .scalar (.num q) => .scalar (.num (ratTrunc q))
      | other => other
    | .float =>
      match jsToNumber v with
      | none => cloneValuePayload (resolvedDefault d)
      | some n => .scalar (.num (clampQ d n))
    | .number =>
      match jsToNumber v with
      | none => cloneValuePayload (resolvedDefault d)
      | some n => .scalar (.num (clampQ d n))
    | .boolean =>
      match v with
      | .scalar (.str s) =>
        let normalized := lowerString (trimString s)
        if normalized = "false" || normalized = "0" || normalized = "no" ||
            normalized = "off" || normalized = "" then
          .scalar (.bool false)
        else if normalized = "true" || normalized = "1" || normalized = "yes" ||
            normalized = "on" then
          .scalar (.bool true)
        else
          .scalar (.bool (jsTruthy (.scalar (.str s))))
      | _ => .scalar (.bool (jsTruthy v))
    | .array =>
      let next := sanitizeArray v
      let next2 :=
        match d.maxLength with
        | some k => if 0 < k then next.take k else next
        | none => next
      .arr next2
    | .object => .obj (sanitizeObject v)
    | .string => v
    | .text => v

/-- The schema-side refinements of `valueDefinitionSchema` that matter for
coercion: `min ≤ max` when both are present, and whole-number bounds for
integer definitions. -/
def defWellFormed (d : GameValueDefinition) : Bool :=
  (match d.min, d.max with
   | some a, some b => decide (a ≤ b)
   | _, _ => true)
  &&
  (match d.type with
   | .integer =>
     (match d.min with | some a => decide (a.den = 1) | none => true)
     && (match d.max with | some b => decide (b.den = 1) | none => true)
   | _ => true)

/-! ### Basic lemmas about the coercion engine -/

theorem clampQ_idem (d : GameValueDefinition) (n : ℚ) :
    clampQ d (clampQ d n) = clampQ d n := by
  unfold clampQ
  cases hm : d.min with
  | none =>
    cases hM : d.max with
    | none => simp
    | some b => simp [min_assoc]
  | some a =>
    cases hM : d.max with
    | none => simp [max_assoc]
    | some b =>
      simp only
      rcases le_total a b with hab | hba
      · have ha1 : a ≤ min (max n a) b := le_min (le_max_right n a) hab
        rw [max_eq_left ha1, min_eq_left (min_le_right (max n a) b)]
      · have hb1 : b ≤ max n a := le_trans hba (le_max_right n a)
        rw [min_eq_right hb1, max_eq_right hba, min_eq_right hba]

theorem ratTrunc_intCast (z : ℤ) : ratTrunc (z : ℚ) = (z : ℚ) := by
  unfold ratTrunc
  split <;> simp

theorem ratTrunc_exists_int (q : ℚ) : ∃ z : ℤ, ratTrunc q = (z : ℚ) := by
  unfold ratTrunc
  split
  · exact ⟨⌊q⌋, rfl⟩
  · exact ⟨⌈q⌉, rfl⟩

theorem rat_den_one_exists_int (q : ℚ) (h : q.den = 1) : ∃ z : ℤ, q = (z : ℚ) := by
  refine ⟨q.num, ?_⟩
  rw [← Rat.num_div_den q, h]
  simp

theorem defWellFormed_min_le_max (d : GameValueDefinition) (a b : ℚ)
    (hwf : defWellFormed d = true) (ha : d.min = some a) (hb : d.max = some b) :
    a ≤ b := by
  unfold defWellFormed at hwf
  rw [ha, hb] at hwf
  simp only [Bool.and_eq_true, decide_eq_true_eq] at hwf
  exact hwf.1

theorem defWellFormed_int_min (d : GameValueDefinition) (a : ℚ)
    (hwf : defWellFormed d = true) (hty : d.type = .integer) (ha : d.min = some a) :
    ∃ z : ℤ, a = (z : ℚ) := by
  unfold defWellFormed at hwf
  rw [hty, ha] at hwf
  simp only [Bool.and_eq_true, decide_eq_true_eq] at hwf
  exact rat_den_one_exists_int a hwf.2.1

theorem defWellFormed_int_max (d : GameValueDefinition) (b : ℚ)
    (hwf : defWellFormed d = true) (hty : d.type = .integer) (hb : d.max = some b) :
    ∃ z : ℤ, b = (z : ℚ) := by
  unfold defWellFormed at hwf
  rw [hty, hb] at hwf
  simp only [Bool.and_eq_true, decide_eq_true_eq] at hwf
  rcases hwf with ⟨-, -, h⟩
  · exact rat_den_one_exists_int b h

theorem clampQ_intCast_of_int_bounds (d : GameValueDefinition)
    (ha : ∀ a : ℚ, d.min = some a → ∃ za : ℤ, a = (za : ℚ))
    (hb : ∀ b : ℚ, d.max = some b → ∃ zb : ℤ, b = (zb : ℚ))
    (z : ℤ) : ∃ w : ℤ, clampQ d (z : ℚ) = (w : ℚ) := by
  unfold clampQ
  cases hm : d.min with
  | none =>
    cases hM : d.max with
    | none => exact ⟨z, by simp⟩
    | some b =>
      obtain ⟨zb, rfl⟩ := hb b hM
      exact ⟨min z zb, by simp [Int.cast_min]⟩
  | some a =>
    obtain ⟨za, rfl⟩ := ha a hm
    cases hM : d.max with
    | none => exact ⟨max z za, by simp [Int.cast_max]⟩
    | some b =>
      obtain ⟨zb, rfl⟩ := hb b hM
      exact ⟨min (max z za) zb, by simp [Int.cast_max, Int.cast_min]⟩

/-! ### Branch equations for `coerceValueForType` -/

theorem jsToNumber_num (q : ℚ) : jsToNumber (.scalar (.num q)) = some q := rfl

theorem coerce_num_eq_some (d : GameValueDefinition) (v : GameValuePayload) (n : ℚ)
    (hty : d.type = .float ∨ d.type = .number) (hn : jsToNumber v = some n) :
    coerceValueForType d (some v) = .scalar (.num (clampQ d n)) := by
  rcases hty with h | h <;> simp [coerceValueForType, h, hn]

theorem coerce_num_eq_none (d : GameValueDefinition) (v : GameValuePayload)
    (hty : d.type = .float ∨ d.type = .number) (hn : jsToNumber v = none) :
    coerceValueForType d (some v) = resolvedDefault d := by
  rcases hty with h | h <;> simp [coerceValueForType, h, hn, cloneValuePayload]

theorem coerce_int_eq_some (d : GameValueDefinition) (v : GameValuePayload) (n : ℚ)
    (hty : d.type = .integer) (hn : jsToNumber v = some n) :
    coerceValueForType d (some v) = .scalar (.num (ratTrunc (clampQ d (ratTrunc n)))) := by
  simp [coerceValueForType, hty, hn]

theorem coerce_int_eq_none (d : GameValueDefinition) (v : GameValuePayload)
    (hty : d.type = .integer) (hn : jsToNumber v = none) :
    coerceValueForType d (some v) =
      (match resolvedDefault d with
       | .scalar (.num q) => .scalar (.num (ratTrunc q))
       | other => other) := by
  simp [coerceValueForType, hty, hn, cloneValuePayload]

theorem clampQ_mem (d : GameValueDefinition) (a b : ℚ)
    (hmin : d.min = some a) (hmax : d.max = some b) (hab : a ≤ b) (n : ℚ) :
    a ≤ clampQ d n ∧ clampQ d n ≤ b := by
  unfold clampQ
  rw [hmin, hmax]
  exact ⟨le_min (le_max_right n a) hab, min_le_right _ _⟩

/-! ### Claim C1 — idempotence of `coerceValueForType` -/

/-- A schema-valid float definition whose `defaultValue` is not a fixed point
of coercion: `min=0, max=1, defaultValue=5`. -/
def defC1 : GameValueDefinition :=
  { id := "mood", label := "Mood", type := .float, min := some 0, max := some 1,
    defaultValue := some (.scalar (.num 5)) }

/-- C1, counterexample: for the schema-valid definition `defC1` and the
payload `"abc"`, `coerce(def, coerce(def, x)) ≠ coerce(def, x)` — the first
coercion returns the out-of-range default 5 (non-finite conversion fallback),
the second clamps it to 1. -/
theorem C1_counterexample :
    defWellFormed defC1 = true ∧
    coerceValueForType defC1 (some (coerceValueForType defC1 (some (.scalar (.str "abc")))))
      ≠ coerceValueForType defC1 (some (.scalar (.str "abc"))) := by
  decide

/-- C1 (corrected): coercion is idempotent for every schema-valid value
definition whose resolved fallback value (`defaultValue ?? type zero value`)
is itself a fixed point of coercion.  Without that extra condition the claim
fails (see the counterexample): the non-finite-conversion fallback returns
the default unprocessed, and a default that coercion would alter breaks
idempotence. -/
theorem C1_coerce_idempotent_amended (d : GameValueDefinition) (v : GameValuePayload)
    (hwf : defWellFormed d = true)
    (hfix : coerceValueForType d (some (resolvedDefault d)) = resolvedDefault d) :
    coerceValueForType d (some (coerceValueForType d (some v)))
      = coerceValueForType d (some v) := by
  cases hty : d.type with
  | string => simp [coerceValueForType, hty]
  | text => simp [coerceValueForType, hty]
  | object =>
    simp [coerceValueForType, hty, sanitizeObject]
  | boolean =>
    cases v with
    | scalar sv =>
      cases sv with
      | str s =>
        simp only [coerceValueForType, hty]
        split_ifs <;> simp [coerceValueForType, hty, jsTruthy]
      | num q => simp [coerceValueForType, hty, jsTruthy]
      | bool b => simp [coerceValueForType, hty, jsTruthy]
    | arr xs => simp [coerceValueForType, hty, jsTruthy]
    | obj es => simp [coerceValueForType, hty, jsTruthy]
  | array =>
    cases hml : d.maxLength with
    | none => simp [coerceValueForType, hty, hml, sanitizeArray]
    | some k =>
      by_cases hk : 0 < k
      · simp [coerceValueForType, hty, hml, hk, sanitizeArray, List.take_take]
      · simp [coerceValueForType, hty, hml, hk, sanitizeArray]
  | float =>
    cases hn : jsToNumber v with
    | some n =>
      rw [coerce_num_eq_some d v n (Or.inl hty) hn,
        coerce_num_eq_some d _ (clampQ d n) (Or.inl hty) (jsToNumber_num _),
        clampQ_idem]
    | none =>
      rw [coerce_num_eq_none d v (Or.inl hty) hn]
      exact hfix
  | number =>
    cases hn : jsToNumber v with
    | some n =>
      rw [coerce_num_eq_some d v n (Or.inr hty) hn,
        coerce_num_eq_some d _ (clampQ d n) (Or.inr hty) (jsToNumber_num _),
        clampQ_idem]
    | none =>
      rw [coerce_num_eq_none d v (Or.inr hty) hn]
      exact hfix
  | integer =>
    cases hn : jsToNumber v with
    | some n =>
      obtain ⟨z, hz⟩ := ratTrunc_exists_int n
      obtain ⟨w, hw⟩ := clampQ_intCast_of_int_bounds d
        (fun a haa => defWellFormed_int_min d a hwf hty haa)
        (fun b hbb => defWellFormed_int_max d b hwf hty hbb) z
      have hcl : clampQ d (w : ℚ) = (w : ℚ) := by
        rw [← hw]; exact clampQ_idem d _
      rw [coerce_int_eq_some d v n hty hn, hz, hw, ratTrunc_intCast,
        coerce_int_eq_some d _ (w : ℚ) hty (jsToNumber_num _),
        ratTrunc_intCast, hcl, ratTrunc_intCast]
    | none =>
      rw [coerce_int_eq_none d v hty hn]
      cases hD : resolvedDefault d with
      | scalar sv =>
        cases sv with
        | num q =>
          rw [hD, coerce_int_eq_some d _ q hty (jsToNumber_num _)] at hfix
          have h1 : ratTrunc (clampQ d (ratTrunc q)) = q := by
            simpa [GameValuePayload.scalar.injEq, ScalarValue.num.injEq] using hfix
          obtain ⟨zq, hzq⟩ : ∃ zz : ℤ, q = (zz : ℚ) := by
            rw [← h1]; exact ratTrunc_exists_int _
          subst hzq
          simp only
          rw [ratTrunc_intCast, coerce_int_eq_some d _ _ hty (jsToNumber_num _), h1]
        | str s =>
          rw [hD] at hfix
          simpa using hfix
        | bool b =>
          rw [hD] at hfix
          simpa using hfix
      | arr xs =>
        rw [hD] at hfix
        simpa using hfix
      | obj es =>
        rw [hD] at hfix
        simpa using hfix

/-- Integer definition with both bounds and fixed-point fallback, used to
instantiate C1 at a concrete input. -/
def wdefC1 : GameValueDefinition :=
  { id := "hp", label := "HP", type := .integer, min := some 0, max := some 10 }

/-- C1 witness: the amended idempotence theorem applied at `wdefC1` and the
string payload `"7"`, with both hypotheses discharged by evaluation. -/
theorem C1_witness :
    (defWellFormed wdefC1 = true ∧
      coerceValueForType wdefC1 (some (resolvedDefault wdefC1)) = resolvedDefault wdefC1) ∧
    coerceValueForType wdefC1 (some (coerceValueForType wdefC1 (some (.scalar (.str "7")))))
      = coerceValueForType wdefC1 (some (.scalar (.str "7"))) :=
  ⟨⟨by decide, by decide⟩,
    C1_coerce_idempotent_amended wdefC1 (.scalar (.str "7")) (by decide) (by decide)⟩

/-! ### Claim C6 — numeric results lie in [min, max] -/

/-- Schema-valid integer definition with `min=5, max=10` and no default. -/
def defC6 : GameValueDefinition :=
  { id := "str", label := "Strength", type := .integer, min := some 5, max := some 10 }

/-- C6, counterexample: for `defC6` (min=5, max=10) the raw input `"abc"`
coerces to 0 — the non-finite conversion falls back to the type zero value,
which is **not** clamped into `[5,10]`. -/
theorem C6_counterexample :
    defWellFormed defC6 = true ∧
    defC6.min = some 5 ∧ defC6.max = some 10 ∧
    coerceValueForType defC6 (some (.scalar (.str "abc"))) = .scalar (.num 0) ∧
    ¬ ((5 : ℚ) ≤ 0) := by
  decide

/-- C6 (corrected): for numeric definitions carrying both bounds the coerced
result lies in `[min,max]` and integer results are whole **provided the
conversion of the input to a number is finite**; when the conversion is
non-finite the fallback chain value is returned unclamped (see the
counterexample). -/
theorem C6_numeric_bounds_amended (d : GameValueDefinition) (a b : ℚ)
    (v : GameValuePayload) (n : ℚ)
    (hwf : defWellFormed d = true)
    (hty : d.type = .integer ∨ d.type = .float ∨ d.type = .number)
    (hmin : d.min = some a) (hmax : d.max = some b)
    (hfin : jsToNumber v = some n) :
    ∃ q : ℚ, coerceValueForType d (some v) = .scalar (.num q) ∧
      a ≤ q ∧ q ≤ b ∧ (d.type = .integer → q.den = 1) := by
  have hab : a ≤ b := defWellFormed_min_le_max d a b hwf hmin hmax
  rcases hty with hI | hF | hN
  · obtain ⟨z, hz⟩ := ratTrunc_exists_int n
    obtain ⟨w, hw⟩ := clampQ_intCast_of_int_bounds d
      (fun x hx => defWellFormed_int_min d x hwf hI hx)
      (fun x hx => defWellFormed_int_max d x hwf hI hx) z
    refine ⟨(w : ℚ), ?_, ?_, ?_, ?_⟩
    · rw [coerce_int_eq_some d v n hI hfin, hz, hw, ratTrunc_intCast]
    · have := (clampQ_mem d a b hmin hmax hab (z : ℚ)).1
      rwa [hw] at this
    · have := (clampQ_mem d a b hmin hmax hab (z : ℚ)).2
      rwa [hw] at this
    · intro _
      exact Rat.den_intCast w
  · refine ⟨clampQ d n, coerce_num_eq_some d v n (Or.inl hF) hfin,
      (clampQ_mem d a b hmin hmax hab n).1, (clampQ_mem d a b hmin hmax hab n).2, ?_⟩
    intro hI
    rw [hF] at hI
    simp at hI
  · refine ⟨clampQ d n, coerce_num_eq_some d v n (Or.inr hN) hfin,
      (clampQ_mem d a b hmin hmax hab n).1, (clampQ_mem d a b hmin hmax hab n).2, ?_⟩
    intro hI
    rw [hN] at hI
    simp at hI

/-- Integer definition used to instantiate C6 at a concrete input. -/
def wdefC6 : GameValueDefinition :=
  { id := "gold", label := "Gold", type := .integer, min := some 5, max := some 10 }

/-- C6 witness: the amended bounds theorem applied at `wdefC6` and the
numeric payload 100 (finite conversion), hypotheses discharged by
evaluation. -/
theorem C6_witness :
    defWellFormed wdefC6 = true ∧
    ∃ q : ℚ, coerceValueForType wdefC6 (some (.scalar (.num 100))) = .scalar (.num q) ∧
      (5 : ℚ) ≤ q ∧ q ≤ 10 ∧ (wdefC6.type = .integer → q.den = 1) :=
  ⟨by decide,
    C6_numeric_bounds_amended wdefC6 5 10 (.scalar (.num 100)) 100
      (by decide) (Or.inl rfl) rfl rfl rfl⟩

/-! ### Claim C8 — string/text coercion -/

/-- A string-typed definition. -/
def defC8 : GameValueDefinition :=
  { id := "name", label := "Name", type := .string }

/-- C8, counterexample: for a string-typed definition the numeric payload 5
is returned **unchanged** (still a number), not as its serialized string
form "5" — the string/text branch of `coerceValueForType` is the
identity. -/
theorem C8_counterexample :
    coerceValueForType defC8 (some (.scalar (.num 5))) = .scalar (.num 5) ∧
    GameValuePayload.scalar (.num 5)
      ≠ .scalar (.str (safeStringify (.scalar (.num 5)))) := by
  decide

/-- C8 (corrected): for string/text definitions `coerceValueForType` returns
every (non-null) input payload unchanged — strings pass through as the claim
says, but non-string payloads are **not** serialized (serialization to a
string happens only later, at prompt-formatting time). -/
theorem C8_string_passthrough_amended (d : GameValueDefinition) (v : GameValuePayload)
    (hty : d.type = .string ∨ d.type = .text) :
    coerceValueForType d (some v) = v := by
  rcases hty with h | h <;> simp [coerceValueForType, h]

/-- C8 witness: the pass-through theorem applied at `defC8` and the numeric
payload 7. -/
theorem C8_witness :
    (defC8.type = .string ∨ defC8.type = .text) ∧
    coerceValueForType defC8 (some (.scalar (.num 7))) = .scalar (.num 7) :=
  ⟨Or.inl rfl, C8_string_passthrough_amended defC8 (.scalar (.num 7)) (Or.inl rfl)⟩

/-! ### Memory reconciler (`applyChangesToMemories`, `src/utils/prompting.ts`)

The two effectful inputs of the source — `new Date().toISOString()` and
`crypto.randomUUID()` — are passed in explicitly: `now` is the single
timestamp taken at entry, and `fresh n` is the n-th generated id. -/

/-- `GameMemoryEntry` from `src/types/game.ts`. -/
structure GameMemoryEntry where
  id : String
  text : String
  tags : List String
  createdAt : String
  updatedAt : String
deriving DecidableEq, Repr

inductive MemOp where
  | add | update | remove
deriving DecidableEq, Repr

/-- One element of `memoryChanges` (`memoryChangeSchema`): untrusted op with
optional id/text/tags (`null` ↦ `none`). -/
structure MemoryChangeCandidate where
  op : MemOp
  id : Option String := none
  text : Option String := none
  tags : Option (List String) := none
deriving DecidableEq, Repr

/-- Loop state of `applyChangesToMemories`: the `updated` list, the `ids`
set (as a duplicate-free list), and the count of generated ids. -/
structure MemState where
  updated : List GameMemoryEntry
  ids : List String
  k : ℕ
deriving Repr

/-- JS `Set.add`. -/
def setInsert (l : List String) (x : String) : List String :=
  if x ∈ l then l else l ++ [x]

/-- The body of the `for (const change of changes)` loop. -/
def memApplyChange (now : String) (fresh : ℕ → String)
    (s : MemState) (c : MemoryChangeCandidate) : MemState :=
  match c.op with
  | .remove =>
    let idt := trimString (c.id.getD "")
    if idt = "" then s
    else
      { updated := s.updated.filter (fun e => decide (e.id ≠ idt)),
        ids := s.ids.filter (fun y => decide (y ≠ idt)),
        k := s.k }
  | .update =>
    let idt := trimString (c.id.getD "")
    if idt = "" then s
    else
      { s with
        updated := s.updated.map (fun e =>
          if e.id = idt then
            { e with
              text := match c.text with
                      | some t => if trimString t ≠ "" then t else e.text
                      | none => e.text,
              tags := c.tags.getD e.tags,
              updatedAt := now }
          else e) }
  | .add =>
    let trimmedText := trimString (c.text.getD "")
    if trimmedText = "" then s
    else
      let id0 := trimString (c.id.getD "")
      let useFresh := id0 = "" || id0 ∈ s.ids
      let idNew := if useFresh then fresh s.k else id0
      { updated := s.updated ++
          [{ id := idNew, text := trimmedText, tags := c.tags.getD [],
             createdAt := now, updatedAt := now }],
        ids := setInsert s.ids idNew,
        k := if useFresh then s.k + 1 else s.k }

/-- The loop of `applyChangesToMemories` before the cap (ids set initialised
from the current entries; JS `new Set` dedups). -/
def applyChangesLoop (now : String) (fresh : ℕ → String)
    (currentMemories : List GameMemoryEntry)
    (changes : List MemoryChangeCandidate) : MemState :=
  changes.foldl (memApplyChange now fresh)
    { updated := currentMemories,
      ids := (currentMemories.map (fun e => e.id)).dedup,
      k := 0 }

/-- `MAX_MEMORIES`. -/
def MAX_MEMORIES : ℕ := 50

/-- `applyChangesToMemories` from `src/utils/prompting.ts`, lines 577–641:
apply every change in order, then cap to the last 50 entries by position
(`updated.slice(updated.length - MAX_MEMORIES)`). -/
def applyChangesToMemories (now : String) (fresh : ℕ → String)
    (currentMemories : List GameMemoryEntry)
    (changes : List MemoryChangeCandidate) : List GameMemoryEntry :=
  let u := (applyChangesLoop now fresh currentMemories changes).updated
  if MAX_MEMORIES < u.length then u.drop (u.length - MAX_MEMORIES) else u

/-! ### Claim C7 — position-based cap to the last 50 entries -/

/-- C7: whenever the reconciled list before the cap exceeds 50 entries, the
returned list is exactly the last 50 entries of that list by position
(earliest-positioned dropped first, independent of update recency), and it
has exactly 50 entries. -/
theorem C7_cap_last_fifty (now : String) (fresh : ℕ → String)
    (mems : List GameMemoryEntry) (changes : List MemoryChangeCandidate)
    (h : 50 < ((applyChangesLoop now fresh mems changes).updated).length) :
    applyChangesToMemories now fresh mems changes
      = ((applyChangesLoop now fresh mems changes).updated).drop
          (((applyChangesLoop now fresh mems changes).updated).length - 50) ∧
    (applyChangesToMemories now fresh mems changes).length = 50 := by
  unfold applyChangesToMemories MAX_MEMORIES
  rw [if_pos h]
  refine ⟨rfl, ?_⟩
  rw [List.length_drop]
  omega

/-- 51 distinct pre-existing memory entries (used to instantiate C7). -/
def mems51 : List GameMemoryEntry :=
  (List.range 51).map (fun i =>
    { id := toString i, text := "fact", tags := [], createdAt := "t0", updatedAt := "t0" })

/-- C7 witness: the cap theorem applied to a concrete 51-entry list with no
changes; the result has exactly 50 entries. -/
theorem C7_witness :
    50 < ((applyChangesLoop "t1" (fun _ => "u") mems51 []).updated).length ∧
    (applyChangesToMemories "t1" (fun _ => "u") mems51 []).length = 50 :=
  ⟨by decide, (C7_cap_last_fifty "t1" (fun _ => "u") mems51 [] (by decide)).2⟩

/-! ### Claim C10 — reconciliation preserves id uniqueness -/

/-- The trimmed explicit ids appearing in a change list. -/
def changeIds (changes : List MemoryChangeCandidate) : List String :=
  changes.filterMap (fun c => c.id.map (fun t => trimString t))

/-- Ids that can be in the reconciler's `ids` set after processing a prefix
of the changes: ids of the input entries, trimmed explicit change ids, and
the first `k` generated ids. -/
def allowedId (initIds cIds : List String) (fresh : ℕ → String) (k : ℕ) (x : String) : Prop :=
  x ∈ initIds ∨ x ∈ cIds ∨ ∃ m, m < k ∧ x = fresh m

/-- Loop invariant of `applyChangesToMemories`: entry ids are duplicate-free,
every entry id is tracked in the `ids` set, and every tracked id is an
allowed one. -/
def MemInv (initIds cIds : List String) (fresh : ℕ → String) (s : MemState) : Prop :=
  (s.updated.map (fun e => e.id)).Nodup ∧
  (∀ e ∈ s.updated, e.id ∈ s.ids) ∧
  (∀ x ∈ s.ids, allowedId initIds cIds fresh s.k x)

theorem allowedId_mono (initIds cIds : List String) (fresh : ℕ → String)
    (k j : ℕ) (hkj : k ≤ j) (x : String)
    (h : allowedId initIds cIds fresh k x) : allowedId initIds cIds fresh j x := by
  rcases h with h | h | ⟨m, hm, hx⟩
  · exact Or.inl h
  · exact Or.inr (Or.inl h)
  · exact Or.inr (Or.inr ⟨m, lt_of_lt_of_le hm hkj, hx⟩)

theorem nodup_concat_id (l : List GameMemoryEntry) (e : GameMemoryEntry)
    (hl : (l.map (fun x => x.id)).Nodup) (he : e.id ∉ l.map (fun x => x.id)) :
    ((l ++ [e]).map (fun x => x.id)).Nodup := by
  rw [List.map_append]
  simp [List.nodup_append, hl, he]

theorem mem_setInsert (l : List String) (x y : String) :
    y ∈ setInsert l x ↔ y ∈ l ∨ y = x := by
  unfold setInsert
  split
  · constructor
    · exact fun h => Or.inl h
    · rintro (h | rfl)
      · exact h
      · assumption
  · simp [List.mem_append]

/-- One reconciler step preserves the invariant, consuming at most one
generated id. -/
theorem memApplyChange_inv
    (now : String) (fresh : ℕ → String) (initIds cIds : List String) (N : ℕ)
    (hinj : ∀ i, i < N → ∀ j, j < N → fresh i = fresh j → i = j)
    (hnew : ∀ i, i < N → fresh i ∉ initIds ∧ fresh i ∉ cIds)
    (c : MemoryChangeCandidate)
    (hc : ∀ t, c.id = some t → trimString t ∈ cIds)
    (s : MemState) (hkN : s.k < N)
    (hinv : MemInv initIds cIds fresh s) :
    MemInv initIds cIds fresh (memApplyChange now fresh s c) ∧
    (memApplyChange now fresh s c).k ≤ s.k + 1 := by
  obtain ⟨h1, h2, h3⟩ := hinv
  cases hop : c.op with
  | remove =>
    unfold memApplyChange
    rw [hop]
    simp only
    split
    · exact ⟨⟨h1, h2, h3⟩, Nat.le_succ _⟩
    · refine ⟨⟨?_, ?_, ?_⟩, Nat.le_succ _⟩
      · exact List.Nodup.sublist (List.Sublist.map _ (List.filter_sublist _)) h1
      · intro e he
        rw [List.mem_filter] at he
        rw [List.mem_filter]
        exact ⟨h2 e he.1, he.2⟩
      · intro x hx
        rw [List.mem_filter] at hx
        exact h3 x hx.1
  | update =>
    unfold memApplyChange
    rw [hop]
    simp only
    split
    · exact ⟨⟨h1, h2, h3⟩, Nat.le_succ _⟩
    · refine ⟨⟨?_, ?_, h3⟩, Nat.le_succ _⟩
      · rw [List.map_map]
        have hcomp : ∀ e ∈ s.updated,
            ((fun x => x.id) ∘ (fun e =>
              if e.id = trimString (c.id.getD "") then
                { e with
                  text := match c.text with
                          | some t => if trimString t ≠ "" then t else e.text
                          | none => e.text,
                  tags := c.tags.getD e.tags,
                  updatedAt := now }
              else e)) e = e.id := by
          intro e _
          simp only [Function.comp]
          split <;> rfl
        rw [List.map_congr_left hcomp]
        exact h1
      · intro e he
        rw [List.mem_map] at he
        obtain ⟨e0, he0, heq⟩ := he
        have : e.id = e0.id := by
          rw [← heq]
          split <;> rfl
        rw [this]
        exact h2 e0 he0
  | add =>
    unfold memApplyChange
    rw [hop]
    simp only
    split
    · exact ⟨⟨h1, h2, h3⟩, Nat.le_succ _⟩
    · rename_i htext
      set id0 := trimString (c.id.getD "") with hid0
      by_cases huf : (id0 = "" || decide (id0 ∈ s.ids)) = true
      · rw [if_pos huf, if_pos huf]
        have hfno : fresh s.k ∉ s.ids := by
          intro hmem
          rcases h3 _ hmem with hin | hin | ⟨m, hm, hx⟩
          · exact (hnew s.k hkN).1 hin
          · exact (hnew s.k hkN).2 hin
          · exact absurd (hinj m (lt_trans hm hkN) s.k hkN hx.symm) (Nat.ne_of_lt hm)
        refine ⟨⟨?_, ?_, ?_⟩, by simp⟩
        · apply nodup_concat_id _ _ h1
          intro hmem
          rw [List.mem_map] at hmem
          obtain ⟨e0, he0, heq⟩ := hmem
          have he0id : e0.id = fresh s.k := heq
          exact hfno (he0id ▸ h2 e0 he0)
        · intro e he
          rw [List.mem_append] at he
          rcases he with he | he
          · rw [mem_setInsert]
            exact Or.inl (h2 e he)
          · rw [List.mem_singleton] at he
            rw [he, mem_setInsert]
            exact Or.inr rfl
        · intro x hx
          rw [mem_setInsert] at hx
          rcases hx with hx | rfl
          · exact allowedId_mono _ _ _ _ _ (Nat.le_succ _) x (h3 x hx)
          · exact Or.inr (Or.inr ⟨s.k, Nat.lt_succ_self _, rfl⟩)
      · rw [if_neg huf, if_neg huf]
        have hid0ne : ¬ (id0 = "") ∧ id0 ∉ s.ids := by
          rw [Bool.or_eq_true, decide_eq_true_eq, decide_eq_true_eq] at huf
          push_neg at huf
          exact huf
        have hid0c : id0 ∈ cIds := by
          cases hcid : c.id with
          | none =>
            exfalso
            apply hid0ne.1
            rw [hid0, hcid]
            decide
          | some t =>
            have : id0 = trimString t := by rw [hid0, hcid]; rfl
            rw [this]
            exact hc t hcid
        refine ⟨⟨?_, ?_, ?_⟩, Nat.le_succ _⟩
        · apply nodup_concat_id _ _ h1
          intro hmem
          rw [List.mem_map] at hmem
          obtain ⟨e0, he0, heq⟩ := hmem
          have he0id : e0.id = id0 := heq
          exact hid0ne.2 (he0id ▸ h2 e0 he0)
        · intro e he
          rw [List.mem_append] at he
          rcases he with he | he
          · rw [mem_setInsert]
            exact Or.inl (h2 e he)
          · rw [List.mem_singleton] at he
            rw [he, mem_setInsert]
            exact Or.inr rfl
        · intro x hx
          rw [mem_setInsert] at hx
          rcases hx with hx | rfl
          · exact h3 x hx
          · exact Or.inr (Or.inl hid0c)

/-- The whole change loop preserves the invariant when at most
`N - s.k` changes remain. -/
theorem applyLoop_inv
    (now : String) (fresh : ℕ → String) (initIds cIds : List String) (N : ℕ)
    (hinj : ∀ i, i < N → ∀ j, j < N → fresh i = fresh j → i = j)
    (hnew : ∀ i, i < N → fresh i ∉ initIds ∧ fresh i ∉ cIds) :
    ∀ (cs : List MemoryChangeCandidate) (s : MemState),
      (∀ c ∈ cs, ∀ t, c.id = some t → trimString t ∈ cIds) →
      s.k + cs.length ≤ N →
      MemInv initIds cIds fresh s →
      MemInv initIds cIds fresh (cs.foldl (memApplyChange now fresh) s) ∧
      (cs.foldl (memApplyChange now fresh) s).k ≤ s.k + cs.length := by
  intro cs
  induction cs with
  | nil =>
    intro s _ _ hinv
    exact ⟨hinv, Nat.le_refl _⟩
  | cons c cs ih =>
    intro s hc hlen hinv
    have hlen2 : s.k + (cs.length + 1) ≤ N := by
      simpa [List.length_cons, Nat.add_assoc] using hlen
    have hkN : s.k < N := by omega
    obtain ⟨hinv1, hk1⟩ := memApplyChange_inv now fresh initIds cIds N hinj hnew c
      (hc c (List.mem_cons_self c cs)) s hkN hinv
    rw [List.foldl_cons]
    obtain ⟨hinv2, hk2⟩ := ih (memApplyChange now fresh s c)
      (fun c0 hc0 => hc c0 (List.mem_cons_of_mem c hc0))
      (by omega) hinv1
    refine ⟨hinv2, ?_⟩
    simp only [List.length_cons]
    omega

/-- C10: if the input memory entries have pairwise distinct ids and the
generated ids are pairwise distinct and collide with neither the input ids
nor any trimmed explicit change id, then the reconciled list returned by
`applyChangesToMemories` also has pairwise distinct ids. -/
theorem C10_reconciled_ids_nodup (now : String) (fresh : ℕ → String)
    (mems : List GameMemoryEntry) (changes : List MemoryChangeCandidate)
    (hmem : (mems.map (fun e => e.id)).Nodup)
    (hinj : ∀ i, i < changes.length → ∀ j, j < changes.length →
      fresh i = fresh j → i = j)
    (hnew : ∀ i, i < changes.length →
      fresh i ∉ mems.map (fun e => e.id) ∧ fresh i ∉ changeIds changes) :
    ((applyChangesToMemories now fresh mems changes).map (fun e => e.id)).Nodup := by
  have hc : ∀ c ∈ changes, ∀ t, c.id = some t → trimString t ∈ changeIds changes := by
    intro c hcmem t hct
    unfold changeIds
    rw [List.mem_filterMap]
    exact ⟨c, hcmem, by rw [hct]; rfl⟩
  have hinv0 : MemInv (mems.map (fun e => e.id)) (changeIds changes) fresh
      { updated := mems, ids := (mems.map (fun e => e.id)).dedup, k := 0 } := by
    refine ⟨hmem, ?_, ?_⟩
    · intro e he
      rw [List.mem_dedup]
      exact List.mem_map_of_mem _ he
    · intro x hx
      rw [List.mem_dedup] at hx
      exact Or.inl hx
  have hfin := applyLoop_inv now fresh (mems.map (fun e => e.id)) (changeIds changes)
      changes.length hinj hnew changes
      { updated := mems, ids := (mems.map (fun e => e.id)).dedup, k := 0 }
      hc (by simp) hinv0
  have hnod : (((applyChangesLoop now fresh mems changes).updated).map
      (fun e => e.id)).Nodup := hfin.1.1
  simp only [applyChangesToMemories]
  split
  · exact List.Nodup.sublist (List.Sublist.map _ (List.drop_sublist _ _)) hnod
  · exact hnod

/-- Concrete inputs instantiating C10. -/
def c10mems : List GameMemoryEntry :=
  [{ id := "a", text := "old fact", tags := [], createdAt := "t0", updatedAt := "t0" }]

def c10changes : List MemoryChangeCandidate :=
  [{ op := .add, text := some "new fact" },
   { op := .add, id := some "a", text := some "colliding id" }]

def c10fresh (n : ℕ) : String := "fresh-" ++ toString n

/-- C10 witness: the uniqueness theorem applied at a concrete list with an
id-colliding add, hypotheses discharged by evaluation. -/
theorem C10_witness :
    ((c10mems.map (fun e => e.id)).Nodup ∧
      (∀ i, i < c10changes.length → ∀ j, j < c10changes.length →
        c10fresh i = c10fresh j → i = j) ∧
      (∀ i, i < c10changes.length →
        c10fresh i ∉ c10mems.map (fun e => e.id) ∧
        c10fresh i ∉ changeIds c10changes)) ∧
    ((applyChangesToMemories "t1" c10fresh c10mems c10changes).map
      (fun e => e.id)).Nodup :=
  ⟨⟨by decide, by decide, by decide⟩,
    C10_reconciled_ids_nodup "t1" c10fresh c10mems c10changes
      (by decide) (by decide) (by decide)⟩

/-! ### Streaming string-field extractor (`src/utils/openai.ts`)

`extractJsonStringFieldPreview` is modelled on `List Char` (JS strings are
indexed sequences of UTF-16 units; the inputs exercised here are plain
characters).  A `\uXXXX` escape becomes the character of that code unit
(idealizing `String.fromCharCode` for non-surrogate units). -/

def listStartsWith : List Char → List Char → Bool
  | [], _ => true
  | _ :: _, [] => false
  | n :: ns, h :: hs => n = h && listStartsWith ns hs

/-- `String.prototype.indexOf` (first match position), via scanning. -/
def firstIdxAux (needle : List Char) : List Char → ℕ → Option ℕ
  | [], acc => if listStartsWith needle [] then some acc else none
  | c :: tl, acc =>
    if listStartsWith needle (c :: tl) then some acc
    else firstIdxAux needle tl (acc + 1)

def indexOfSub (hay needle : List Char) : Option ℕ :=
  firstIdxAux needle hay 0

/-- Substring occurrence, stated independently of the scan order (used to
state the absent-key property). -/
def containsSub (hay needle : List Char) : Bool :=
  (List.range (hay.length + 1)).any (fun i => listStartsWith needle (hay.drop i))

def isHexDigit (c : Char) : Bool :=
  isDigitChar c || ('a' ≤ c && c ≤ 'f') || ('A' ≤ c && c ≤ 'F')

def hexVal (c : Char) : ℕ :=
  if isDigitChar c then digitVal c
  else if 'a' ≤ c && c ≤ 'f' then c.toNat - 'a'.toNat + 10
  else c.toNat - 'A'.toNat + 10

def hexCharOf (h1 h2 h3 h4 : Char) : Char :=
  Char.ofNat (hexVal h1 * 4096 + hexVal h2 * 256 + hexVal h3 * 16 + hexVal h4)

/-- The decode loop of `extractJsonStringFieldPreview`: decode characters
until an unescaped closing quote or end of input, honouring the JSON escape
set; a truncated escape or malformed `\uXXXX` stops and returns what was
decoded so far. -/
def decodeStringPrefix : List Char → List Char
  | [] => []
  | '\\' :: 'u' :: h1 :: h2 :: h3 :: h4 :: rest6 =>
    if isHexDigit h1 && isHexDigit h2 && isHexDigit h3 && isHexDigit h4 then
      hexCharOf h1 h2 h3 h4 :: decodeStringPrefix rest6
    else []
  | '\\' :: 'u' :: _ => []
  | '\\' :: esc :: rest2 =>
    if esc = '"' then '"' :: decodeStringPrefix rest2
    else if esc = '\\' then '\\' :: decodeStringPrefix rest2
    else if esc = '/' then '/' :: decodeStringPrefix rest2
    else if esc = 'b' then '\x08' :: decodeStringPrefix rest2
    else if esc = 'f' then '\x0c' :: decodeStringPrefix rest2
    else if esc = 'n' then '\n' :: decodeStringPrefix rest2
    else if esc = 'r' then '\r' :: decodeStringPrefix rest2
    else if esc = 't' then '\t' :: decodeStringPrefix rest2
    else esc :: decodeStringPrefix rest2
  | '\\' :: [] => []
  | '"' :: _ => []
  | c :: rest => c :: decodeStringPrefix rest

/-- The quoted key (`'"' + fieldName + '"'`). -/
def keyNeedle (fieldName : String) : List Char :=
  '"' :: fieldName.toList ++ ['"']

/-- `extractJsonStringFieldPreview` from `src/utils/openai.ts`, lines
216–296: find the quoted key, skip whitespace, require a colon, skip
whitespace, require an opening quote, then decode until an unescaped quote
or end of input; `none` when the key (or the expected punctuation) is not
found. -/
def extractJsonStringFieldPreview (jsonText : List Char) (fieldName : String) :
    Option String :=
  match indexOfSub jsonText (keyNeedle fieldName) with
  | none => none
  | some keyIndex =>
    let rest0 := jsonText.drop (keyIndex + (keyNeedle fieldName).length)
    let rest1 := rest0.dropWhile isWsChar
    match rest1 with
    | ':' :: rest2 =>
      let rest3 := rest2.dropWhile isWsChar
      match rest3 with
      | '"' :: rest4 => some (String.mk (decodeStringPrefix rest4))
      | _ => none
    | _ => none

theorem firstIdxAux_eq_none (needle : List Char) :
    ∀ (hay : List Char), (∀ i, listStartsWith needle (hay.drop i) = false) →
    ∀ acc, firstIdxAux needle hay acc = none := by
  intro hay
  induction hay with
  | nil =>
    intro h acc
    have h0 := h 0
    simp only [List.drop_zero] at h0
    simp only [firstIdxAux, h0, Bool.false_eq_true, if_false]
  | cons c tl ih =>
    intro h acc
    have h0 := h 0
    simp only [List.drop_zero] at h0
    simp only [firstIdxAux, h0, Bool.false_eq_true, if_false]
    exact ih (fun i => by simpa using h (i + 1)) (acc + 1)

theorem listStartsWith_of_contains_false (hay needle : List Char)
    (h : containsSub hay needle = false) :
    ∀ i, listStartsWith needle (hay.drop i) = false := by
  unfold containsSub at h
  rw [List.any_eq_false] at h
  intro i
  by_cases hi : i ≤ hay.length
  · have hmem := h i (List.mem_range.mpr (Nat.lt_succ_of_le hi))
    cases hb : listStartsWith needle (hay.drop i)
    · rfl
    · exact absurd hb hmem
  · push_neg at hi
    have hdrop : hay.drop i = [] := List.drop_eq_nil_of_le (le_of_lt hi)
    have hnil := h hay.length (List.mem_range.mpr (Nat.lt_succ_self _))
    rw [List.drop_length] at hnil
    rw [hdrop]
    cases hb : listStartsWith needle []
    · rfl
    · exact absurd hb hnil

/-- A character that is neither a quote nor a backslash decodes as itself. -/
theorem decode_step_plain (c : Char) (tl : List Char)
    (h1 : c ≠ '"') (h2 : c ≠ '\\') :
    decodeStringPrefix (c :: tl) = c :: decodeStringPrefix tl := by
  rw [decodeStringPrefix.eq_def]
  split
  all_goals simp_all

theorem decodeStringPrefix_simple (p : List Char)
    (h : ∀ c ∈ p, c ≠ '"' ∧ c ≠ '\\') :
    decodeStringPrefix p = p := by
  induction p with
  | nil => rfl
  | cons c tl ih =>
    have hc := h c (List.mem_cons_self c tl)
    rw [decode_step_plain c tl hc.1 hc.2,
      ih (fun x hx => h x (List.mem_cons_of_mem c hx))]

theorem decodeStringPrefix_closed (p rest : List Char)
    (h : ∀ c ∈ p, c ≠ '"' ∧ c ≠ '\\') :
    decodeStringPrefix (p ++ '"' :: rest) = p := by
  induction p with
  | nil => rfl
  | cons c tl ih =>
    have hc := h c (List.mem_cons_self c tl)
    rw [List.cons_append, decode_step_plain c _ hc.1 hc.2,
      ih (fun x hx => h x (List.mem_cons_of_mem c hx))]

/-- `'{"narrative":"'` — the snapshot prefix of the claim's example. -/
def c9head : List Char := "\x7b\"narrative\":\"".toList

/-- C9: (i) when the quoted key does not occur in the accumulated snapshot,
the extractor returns `none`; (ii) for a snapshot `{"narrative":"<p>` whose
value characters contain no quote or backslash, the extractor returns the
decoded characters so far — `p` itself — while the string is still open,
and exactly the same `p` once an unescaped closing quote (followed by
anything) is appended. -/
theorem C9_extract_string_field :
    (∀ (jsonText : List Char) (fieldName : String),
      containsSub jsonText (keyNeedle fieldName) = false →
      extractJsonStringFieldPreview jsonText fieldName = none) ∧
    (∀ (p rest : List Char), (∀ c ∈ p, c ≠ '"' ∧ c ≠ '\\') →
      extractJsonStringFieldPreview (c9head ++ p) "narrative"
          = some (String.mk p) ∧
      extractJsonStringFieldPreview (c9head ++ (p ++ '"' :: rest)) "narrative"
          = some (String.mk p)) := by
  constructor
  · intro jsonText fieldName h
    unfold extractJsonStringFieldPreview indexOfSub
    rw [firstIdxAux_eq_none _ _ (listStartsWith_of_contains_false _ _ h) 0]
  · intro p rest h
    constructor
    · show some (String.mk (decodeStringPrefix p)) = some (String.mk p)
      rw [decodeStringPrefix_simple p h]
    · show some (String.mk (decodeStringPrefix (p ++ '"' :: rest)))
          = some (String.mk p)
      rw [decodeStringPrefix_closed p rest h]

/-- C9 witness: the theorem instantiated at the claim's concrete snapshots —
a snapshot without the key yields `none`; `'{"narrative":"Hello'` yields
`"Hello"`, and appending `'"}'` leaves the result `"Hello"` unchanged. -/
theorem C9_witness :
    (containsSub "\x7b\"other\":1\x7d".toList (keyNeedle "narrative") = false ∧
      extractJsonStringFieldPreview "\x7b\"other\":1\x7d".toList "narrative" = none) ∧
    ((∀ c ∈ "Hello".toList, c ≠ '"' ∧ c ≠ '\\') ∧
      extractJsonStringFieldPreview "\x7b\"narrative\":\"Hello".toList "narrative"
          = some "Hello" ∧
      extractJsonStringFieldPreview "\x7b\"narrative\":\"Hello\"\x7d".toList "narrative"
          = some "Hello") :=
  ⟨⟨by decide, C9_extract_string_field.1 _ _ (by decide)⟩,
    ⟨by decide,
      (C9_extract_string_field.2 "Hello".toList ['\x7d'] (by decide)).1,
      (C9_extract_string_field.2 "Hello".toList ['\x7d'] (by decide)).2⟩⟩

/-! ### Turn orchestrator (`useGameTurn.mutationFn`, `src/unnamed/part_003`)

The success path of one turn, after the provider reply has been parsed and
validated: value reconciliation, memory reconciliation, step construction,
the consolidation decision with its retry-once logic, and the record handed
to `persistSave`.  External effects are inputs: `result` is the validated
turn reply, `attempt1`/`attempt2` the outcomes of the up-to-two
`runMemoryOverview` calls (`err b` = rejection with `b` the state of
`abortController.signal.aborted` at the catch), `rollValue` the drawn d20,
`stepId` the generated step id, `nowMem1`/`nowStep`/`nowMem2` the timestamp
reads, and `fresh1`/`fresh2` the uuid supplies of the two memory
reconciliations. -/

/-- One element of the reply's `stateChanges`. -/
structure StateChangeCandidate where
  valueId : String
  next : GameValuePayload
  reason : Option String := none
deriving DecidableEq, Repr

/-- The validated turn reply (`stepResultSchema`). -/
structure StepResult where
  narrative : String
  summary : Option String := none
  stateChanges : List StateChangeCandidate := []
  memoryChanges : List MemoryChangeCandidate := []
  playerOptions : List String := []
deriving DecidableEq, Repr

/-- One recorded change inside a Step (`stepChangeSchema`). -/
structure StepChange where
  valueId : String
  previous : Option GameValuePayload := none
  next : GameValuePayload
  reason : Option String := none
deriving DecidableEq, Repr

/-- `GameStep` (`stepSchema`). -/
structure GameStep where
  id : String
  playerAction : String
  narrative : String
  stateChanges : List StepChange := []
  playerOptions : List String := []
  createdAt : String
  d20Roll : Option ℕ := none
deriving DecidableEq, Repr

/-- The template fields the orchestrator reads. -/
structure GameTemplate where
  valueDefinitions : List GameValueDefinition
  rollMode : Bool := false
deriving DecidableEq, Repr

/-- The save fields the orchestrator reads and writes (`saveSchema`).
`values` is an association list in key-insertion order. -/
structure GameSave where
  id : String
  templateId : String
  title : String
  summary : Option String := none
  lastMemoryOverviewAtHistoryLen : ℕ := 0
  values : List (String × GameValuePayload)
  memories : List GameMemoryEntry := []
  history : List GameStep := []
deriving DecidableEq, Repr

/-- `save.values[k]` (JS object lookup). -/
def recordGet (m : List (String × GameValuePayload)) (k : String) :
    Option GameValuePayload :=
  (m.find? (fun kv => kv.1 == k)).map (fun kv => kv.2)

/-- `updated[k] = v` on a spread copy (replace in place, or append a new
key). -/
def recordSet (m : List (String × GameValuePayload)) (k : String)
    (v : GameValuePayload) : List (String × GameValuePayload) :=
  if m.any (fun kv => kv.1 == k) then
    m.map (fun kv => if kv.1 == k then (k, v) else kv)
  else m ++ [(k, v)]

/-- `applyChangesToValues` from `src/utils/prompting.ts`: coerce and store
each change whose `valueId` has a definition; unknown ids are skipped. -/
def applyChangesToValues (template : GameTemplate)
    (currentValues : List (String × GameValuePayload))
    (changes : List StateChangeCandidate) : List (String × GameValuePayload) :=
  changes.foldl (fun updated change =>
    match template.valueDefinitions.find? (fun d => d.id == change.valueId) with
    | none => updated
    | some definition =>
      recordSet updated change.valueId
        (coerceValueForType definition (some change.next))) currentValues

/-- The validated consolidation reply (`memoryOverviewResultSchema`). -/
structure MemoryOverviewResult where
  memoryChanges : List MemoryChangeCandidate := []
deriving DecidableEq, Repr

/-- Outcome of one `runMemoryOverview` call: success, or rejection with the
abort-signal state observed in the catch handler. -/
inductive OverviewOutcome where
  | ok (r : MemoryOverviewResult)
  | err (aborted : Bool)
deriving DecidableEq, Repr

/-- The only rejection the modelled (post-reply) region produces: the first
consolidation failure is rethrown when the shared signal is aborted. -/
inductive TurnError where
  | overviewAborted
deriving DecidableEq, Repr

/-- The record passed to `persistSave`. -/
structure PersistArgs where
  id : String
  templateId : String
  title : String
  summary : Option String
  lastMemoryOverviewAtHistoryLen : ℕ
  values : List (String × GameValuePayload)
  memories : List GameMemoryEntry
  history : List GameStep
deriving DecidableEq, Repr

/-- All inputs of one modelled turn. -/
structure TurnInputs where
  template : GameTemplate
  save : GameSave
  playerAction : String
  memoryTurnCount : Option ℚ := none
  result : StepResult
  attempt1 : OverviewOutcome
  attempt2 : OverviewOutcome
  stepId : String
  nowMem1 : String
  nowStep : String
  nowMem2 : String
  rollValue : ℕ := 1
  fresh1 : ℕ → String
  fresh2 : ℕ → String

/-- What the turn produced: the persisted record, the step appended to
history, how many consolidation calls were issued, and the backoff delays
(ms) awaited before retries. -/
structure TurnOutput where
  persisted : PersistArgs
  appendedStep : GameStep
  overviewCalls : ℕ
  backoffWaits : List ℕ
deriving DecidableEq, Repr

/-- `const updatedValues = applyChangesToValues(template, save.values,
result.stateChanges)`. -/
def valuesAfterTurn (inp : TurnInputs) : List (String × GameValuePayload) :=
  applyChangesToValues inp.template inp.save.values inp.result.stateChanges

/-- `let updatedMemories = applyChangesToMemories(save.memories ?? [],
result.memoryChanges ?? [])`. -/
def memoriesAfterTurn (inp : TurnInputs) : List GameMemoryEntry :=
  applyChangesToMemories inp.nowMem1 inp.fresh1 inp.save.memories
    inp.result.memoryChanges

/-- The `step` object: `previous` is read from `save.values` (the value
before this turn) and `next` is the reply's raw `change.next`. -/
def buildStep (inp : TurnInputs) : GameStep :=
  { id := inp.stepId,
    playerAction := if inp.playerAction = "" then "Continue" else inp.playerAction,
    narrative := inp.result.narrative,
    stateChanges := inp.result.stateChanges.map (fun change =>
      { valueId := change.valueId,
        previous := recordGet inp.save.values change.valueId,
        next := change.next,
        reason := change.reason }),
    playerOptions := inp.result.playerOptions,
    createdAt := inp.nowStep,
    d20Roll := if inp.template.rollMode then some inp.rollValue else none }

/-- `const history = [...save.history, step]`. -/
def turnHistory (inp : TurnInputs) : List GameStep :=
  inp.save.history ++ [buildStep inp]

/-- `Math.max(1, Math.min(10, settings?.memoryTurnCount ?? 4))`. -/
def turnInterval (inp : TurnInputs) : ℚ :=
  max 1 (min 10 (inp.memoryTurnCount.getD 4))

/-- `Math.min(lastCursor, historyLen)`. -/
def normalizedCursor (inp : TurnInputs) : ℕ :=
  min inp.save.lastMemoryOverviewAtHistoryLen (turnHistory inp).length

/-- `historyLen - normalizedCursor >= interval`.  Since
`normalizedCursor = min(lastCursor, historyLen) ≤ historyLen`, the JS
number subtraction equals the natural-number difference cast to ℚ. -/
def shouldRunOverviewB (inp : TurnInputs) : Bool :=
  decide ((((turnHistory inp).length - normalizedCursor inp : ℕ) : ℚ)
    ≥ turnInterval inp)

/-- Folding a consolidation reply into the post-turn memories. -/
def overviewApply (inp : TurnInputs) (r : MemoryOverviewResult) :
    List GameMemoryEntry :=
  applyChangesToMemories inp.nowMem2 inp.fresh2 (memoriesAfterTurn inp)
    r.memoryChanges

/-- The record handed to `persistSave` (summary is
`result.summary ?? save.summary`). -/
def persistArgsOf (inp : TurnInputs) (mems : List GameMemoryEntry)
    (cursor : ℕ) : PersistArgs :=
  { id := inp.save.id,
    templateId := inp.save.templateId,
    title := inp.save.title,
    summary := match inp.result.summary with
               | some s => some s
               | none => inp.save.summary,
    lastMemoryOverviewAtHistoryLen := cursor,
    values := valuesAfterTurn inp,
    memories := mems,
    history := turnHistory inp }

/-- `useGameTurn.mutationFn` from `src/unnamed/part_003`, lines 131–292
(success path, after the validated reply): reconcile values and memories,
build and append the step, decide the consolidation, run it with one
750 ms-backoff retry on a non-cancellation failure (rethrow when aborted;
skip silently when the retry also fails, leaving the cursor unchanged), and
persist. -/
def mutationFnModel (inp : TurnInputs) : Except TurnError TurnOutput :=
  if shouldRunOverviewB inp then
    match inp.attempt1 with
    | .ok r =>
      .ok { persisted := persistArgsOf inp (overviewApply inp r) (turnHistory inp).length,
            appendedStep := buildStep inp, overviewCalls := 1, backoffWaits := [] }
    | .err aborted =>
      if aborted then .error .overviewAborted
      else
        match inp.attempt2 with
        | .ok r =>
          .ok { persisted := persistArgsOf inp (overviewApply inp r) (turnHistory inp).length,
                appendedStep := buildStep inp, overviewCalls := 2, backoffWaits := [750] }
        | .err _ =>
          .ok { persisted := persistArgsOf inp (memoriesAfterTurn inp) (normalizedCursor inp),
                appendedStep := buildStep inp, overviewCalls := 2, backoffWaits := [750] }
  else
    .ok { persisted := persistArgsOf inp (memoriesAfterTurn inp) (normalizedCursor inp),
          appendedStep := buildStep inp, overviewCalls := 0, backoffWaits := [] }

theorem turnHistory_length (inp : TurnInputs) :
    (turnHistory inp).length = inp.save.history.length + 1 := by
  simp [turnHistory]

/-- Under the cursor invariant, the decision predicate coincides with
`(new history length − cursor) ≥ clamped window`. -/
theorem shouldRunOverviewB_iff (inp : TurnInputs)
    (h2 : inp.save.lastMemoryOverviewAtHistoryLen ≤ inp.save.history.length) :
    shouldRunOverviewB inp = true ↔
      ((inp.save.history.length + 1 : ℕ) : ℚ)
          - (inp.save.lastMemoryOverviewAtHistoryLen : ℚ)
        ≥ max 1 (min 10 (inp.memoryTurnCount.getD 4)) := by
  unfold shouldRunOverviewB turnInterval normalizedCursor
  rw [decide_eq_true_eq, turnHistory_length,
    min_eq_left (le_trans h2 (Nat.le_succ _)),
    Nat.cast_sub (le_trans h2 (Nat.le_succ _))]

theorem normalizedCursor_eq (inp : TurnInputs)
    (h2 : inp.save.lastMemoryOverviewAtHistoryLen ≤ inp.save.history.length) :
    normalizedCursor inp = inp.save.lastMemoryOverviewAtHistoryLen := by
  unfold normalizedCursor
  rw [turnHistory_length]
  exact min_eq_left (le_trans h2 (Nat.le_succ _))

/-- C3: under the cursor invariant (cursor ≤ old history length), a
consolidation call is issued on a turn iff
`(new history length − cursor) ≥ window` with the window clamped to
`[1,10]`; and when the first call succeeds, exactly one call is issued if
the condition holds and none otherwise. -/
theorem C3_overview_trigger (inp : TurnInputs)
    (h2 : inp.save.lastMemoryOverviewAtHistoryLen ≤ inp.save.history.length) :
    (∀ out, mutationFnModel inp = .ok out →
      (1 ≤ out.overviewCalls ↔
        ((inp.save.history.length + 1 : ℕ) : ℚ)
            - (inp.save.lastMemoryOverviewAtHistoryLen : ℚ)
          ≥ max 1 (min 10 (inp.memoryTurnCount.getD 4)))) ∧
    (∀ r, inp.attempt1 = .ok r →
      ∃ out, mutationFnModel inp = .ok out ∧
        out.overviewCalls =
          if ((inp.save.history.length + 1 : ℕ) : ℚ)
              - (inp.save.lastMemoryOverviewAtHistoryLen : ℚ)
            ≥ max 1 (min 10 (inp.memoryTurnCount.getD 4))
          then 1 else 0) := by
  have hiff := shouldRunOverviewB_iff inp h2
  constructor
  · intro out hout
    unfold mutationFnModel at hout
    split at hout
    · rename_i hs
      split at hout
      · cases hout
        exact ⟨fun _ => hiff.mp hs, fun _ => Nat.le_refl 1⟩
      · split at hout
        · simp at hout
        · split at hout
          · cases hout
            exact ⟨fun _ => hiff.mp hs, fun _ => by norm_num⟩
          · cases hout
            exact ⟨fun _ => hiff.mp hs, fun _ => by norm_num⟩
    · rename_i hs
      cases hout
      constructor
      · intro h10
        exact absurd h10 (by norm_num)
      · intro hcond
        exact absurd (hiff.mpr hcond) hs
  · intro r ha
    by_cases hs : shouldRunOverviewB inp = true
    · refine ⟨{ persisted := persistArgsOf inp (overviewApply inp r) (turnHistory inp).length,
                appendedStep := buildStep inp, overviewCalls := 1, backoffWaits := [] },
              ?_, ?_⟩
      · unfold mutationFnModel
        rw [if_pos hs, ha]
      · rw [if_pos (hiff.mp hs)]
    · refine ⟨{ persisted := persistArgsOf inp (memoriesAfterTurn inp) (normalizedCursor inp),
                appendedStep := buildStep inp, overviewCalls := 0, backoffWaits := [] },
              ?_, ?_⟩
      · unfold mutationFnModel
        rw [if_neg hs]
      · rw [if_neg (fun hcond => hs (hiff.mpr hcond))]

/-- C4: when the consolidation pass is due and its first call fails with the
cancellation signal not set, the orchestrator waits 750 ms and retries
exactly once (two calls total); if the retry also fails the turn still
succeeds, persisting the un-consolidated post-turn memories with the cursor
unchanged; when either call succeeds the persisted cursor advances to the
new history length. -/
theorem C4_overview_retry (inp : TurnInputs)
    (h2 : inp.save.lastMemoryOverviewAtHistoryLen ≤ inp.save.history.length)
    (hcond : shouldRunOverviewB inp = true) :
    (inp.attempt1 = .err false →
      ∃ out, mutationFnModel inp = .ok out ∧
        out.overviewCalls = 2 ∧ out.backoffWaits = [750] ∧
        (∀ b, inp.attempt2 = .err b →
          out.persisted.memories = memoriesAfterTurn inp ∧
          out.persisted.lastMemoryOverviewAtHistoryLen
            = inp.save.lastMemoryOverviewAtHistoryLen ∧
          out.persisted.values = valuesAfterTurn inp ∧
          out.persisted.history = turnHistory inp) ∧
        (∀ r, inp.attempt2 = .ok r →
          out.persisted.lastMemoryOverviewAtHistoryLen
            = inp.save.history.length + 1)) ∧
    (∀ r, inp.attempt1 = .ok r →
      ∃ out, mutationFnModel inp = .ok out ∧
        out.persisted.lastMemoryOverviewAtHistoryLen
          = inp.save.history.length + 1) := by
  constructor
  · intro ha1
    cases ha2 : inp.attempt2 with
    | ok r =>
      refine ⟨{ persisted := persistArgsOf inp (overviewApply inp r) (turnHistory inp).length,
                appendedStep := buildStep inp, overviewCalls := 2, backoffWaits := [750] },
              ?_, rfl, rfl, ?_, ?_⟩
      · unfold mutationFnModel
        rw [if_pos hcond, ha1, ha2]
        simp
      · intro b hb
        simp at hb
      · intro r2 _
        simp [persistArgsOf, turnHistory_length]
    | err b2 =>
      refine ⟨{ persisted := persistArgsOf inp (memoriesAfterTurn inp) (normalizedCursor inp),
                appendedStep := buildStep inp, overviewCalls := 2, backoffWaits := [750] },
              ?_, rfl, rfl, ?_, ?_⟩
      · unfold mutationFnModel
        rw [if_pos hcond, ha1, ha2]
        simp
      · intro b hb
        refine ⟨rfl, ?_, rfl, rfl⟩
        simp [persistArgsOf, normalizedCursor_eq inp h2]
      · intro r2 hr2
        simp at hr2
  · intro r ha1
    refine ⟨{ persisted := persistArgsOf inp (overviewApply inp r) (turnHistory inp).length,
              appendedStep := buildStep inp, overviewCalls := 1, backoffWaits := [] },
            ?_, ?_⟩
    · unfold mutationFnModel
      rw [if_pos hcond, ha1]
    · simp [persistArgsOf, turnHistory_length]

/-- C5 (corrected / amended form): the step appended to history records, for
every state change of the reply, the value stored before this turn as
`previous` and the reply's **raw** `next` — not the coerced value. -/
theorem C5_step_previous_and_raw_next (inp : TurnInputs) (out : TurnOutput)
    (h : mutationFnModel inp = .ok out) :
    out.appendedStep.stateChanges = inp.result.stateChanges.map (fun c =>
      { valueId := c.valueId,
        previous := recordGet inp.save.values c.valueId,
        next := c.next,
        reason := c.reason }) := by
  have hstep : out.appendedStep = buildStep inp := by
    unfold mutationFnModel at h
    split at h
    · split at h
      · cases h
        rfl
      · split at h
        · simp at h
        · split at h
          · cases h
            rfl
          · cases h
            rfl
    · cases h
      rfl
  rw [hstep]
  rfl

/-! Projections used to state concrete facts about a turn outcome. -/

def modelCallsOf (r : Except TurnError TurnOutput) : Option ℕ :=
  r.toOption.map (fun o => o.overviewCalls)

def modelWaitsOf (r : Except TurnError TurnOutput) : Option (List ℕ) :=
  r.toOption.map (fun o => o.backoffWaits)

def modelCursorOf (r : Except TurnError TurnOutput) : Option ℕ :=
  r.toOption.map (fun o => o.persisted.lastMemoryOverviewAtHistoryLen)

def modelMemoriesOf (r : Except TurnError TurnOutput) : Option (List GameMemoryEntry) :=
  r.toOption.map (fun o => o.persisted.memories)

def modelStepChangesOf (r : Except TurnError TurnOutput) : Option (List StepChange) :=
  r.toOption.map (fun o => o.appendedStep.stateChanges)

/-- Integer definition with `max=10` used in the C5 instance. -/
def c5def : GameValueDefinition :=
  { id := "hp", label := "HP", type := .integer, max := some 10 }

/-- A turn whose reply raises `hp` from 1 to a raw 100 (which coercion
clamps to 10). -/
def c5inp : TurnInputs :=
  { template := { valueDefinitions := [c5def] },
    save := { id := "s1", templateId := "t1", title := "Run",
              values := [("hp", .scalar (.num 1))] },
    playerAction := "attack",
    memoryTurnCount := some 4,
    result := { narrative := "You strike.",
                stateChanges := [{ valueId := "hp", next := .scalar (.num 100) }] },
    attempt1 := .err false,
    attempt2 := .err false,
    stepId := "step-1",
    nowMem1 := "t-mem1", nowStep := "t-step", nowMem2 := "t-mem2",
    fresh1 := fun _ => "uuid-a", fresh2 := fun _ => "uuid-b" }

/-- C5, counterexample: the appended step records `next = 100` — the raw
reply value — although coercion of that value under the acting definition
yields 10; so the step does **not** record the coerced new value. -/
theorem C5_counterexample :
    modelStepChangesOf (mutationFnModel c5inp) =
      some [{ valueId := "hp", previous := some (.scalar (.num 1)),
              next := .scalar (.num 100), reason := none }] ∧
    coerceValueForType c5def (some (.scalar (.num 100))) = .scalar (.num 10) ∧
    GameValuePayload.scalar (.num 100) ≠ GameValuePayload.scalar (.num 10) := by
  decide

/-- C5 witness: the amended step-recording theorem applied at the concrete
turn `c5inp`. -/
theorem C5_witness :
    modelStepChangesOf (mutationFnModel c5inp) =
      some (c5inp.result.stateChanges.map (fun c =>
        { valueId := c.valueId,
          previous := recordGet c5inp.save.values c.valueId,
          next := c.next,
          reason := c.reason })) := by
  cases hout : mutationFnModel c5inp with
  | error e =>
    have hnone : modelStepChangesOf (mutationFnModel c5inp) = none := by
      rw [hout]; rfl
    have hne : modelStepChangesOf (mutationFnModel c5inp) ≠ none := by decide
    exact absurd hnone hne
  | ok out =>
    simp only [modelStepChangesOf, hout, Except.toOption, Option.map_some']
    rw [C5_step_previous_and_raw_next c5inp out hout]

/-- A minimal prior step for history lists. -/
def c3step : GameStep :=
  { id := "h0", playerAction := "look", narrative := "…", createdAt := "t0" }

/-- Session A: three prior steps, cursor 0, window 4 — the fourth turn is
due for consolidation. -/
def c3inpA : TurnInputs :=
  { template := { valueDefinitions := [c5def] },
    save := { id := "sA", templateId := "t1", title := "Run",
              values := [("hp", .scalar (.num 1))],
              history := [c3step, c3step, c3step] },
    playerAction := "go",
    memoryTurnCount := some 4,
    result := { narrative := "n" },
    attempt1 := .ok { memoryChanges := [] },
    attempt2 := .ok { memoryChanges := [] },
    stepId := "step-A",
    nowMem1 := "t1a", nowStep := "t2a", nowMem2 := "t3a",
    fresh1 := fun _ => "uA", fresh2 := fun _ => "uB" }

/-- Session B: two prior steps, cursor 0, window 4 — length 3 after the
turn, not due. -/
def c3inpB : TurnInputs :=
  { template := { valueDefinitions := [c5def] },
    save := { id := "sB", templateId := "t1", title := "Run",
              values := [("hp", .scalar (.num 1))],
              history := [c3step, c3step] },
    playerAction := "go",
    memoryTurnCount := some 4,
    result := { narrative := "n" },
    attempt1 := .ok { memoryChanges := [] },
    attempt2 := .ok { memoryChanges := [] },
    stepId := "step-B",
    nowMem1 := "t1b", nowStep := "t2b", nowMem2 := "t3b",
    fresh1 := fun _ => "uA", fresh2 := fun _ => "uB" }

/-- C3 witness: the trigger theorem instantiated at a session reaching
history length 4 with cursor 0 and window 4 (exactly one consolidation
call) and one reaching length 3 (no call). -/
theorem C3_witness :
    (c3inpA.save.lastMemoryOverviewAtHistoryLen ≤ c3inpA.save.history.length ∧
      c3inpB.save.lastMemoryOverviewAtHistoryLen ≤ c3inpB.save.history.length) ∧
    modelCallsOf (mutationFnModel c3inpA) = some 1 ∧
    modelCallsOf (mutationFnModel c3inpB) = some 0 := by
  refine ⟨⟨by decide, by decide⟩, ?_, ?_⟩
  · obtain ⟨out, hok, hcalls⟩ :=
      (C3_overview_trigger c3inpA (by decide)).2 { memoryChanges := [] } rfl
    have hcond : ((c3inpA.save.history.length + 1 : ℕ) : ℚ)
        - (c3inpA.save.lastMemoryOverviewAtHistoryLen : ℚ)
        ≥ max 1 (min 10 (c3inpA.memoryTurnCount.getD 4)) := by
      show ((3 + 1 : ℕ) : ℚ) - ((0 : ℕ) : ℚ) ≥ max 1 (min 10 ((some (4:ℚ)).getD 4))
      norm_num
    rw [if_pos hcond] at hcalls
    simp only [modelCallsOf, hok, Except.toOption, Option.map_some', hcalls]
  · obtain ⟨out, hok, hcalls⟩ :=
      (C3_overview_trigger c3inpB (by decide)).2 { memoryChanges := [] } rfl
    have hcond : ¬ (((c3inpB.save.history.length + 1 : ℕ) : ℚ)
        - (c3inpB.save.lastMemoryOverviewAtHistoryLen : ℚ)
        ≥ max 1 (min 10 (c3inpB.memoryTurnCount.getD 4))) := by
      show ¬ (((2 + 1 : ℕ) : ℚ) - ((0 : ℕ) : ℚ) ≥ max 1 (min 10 ((some (4:ℚ)).getD 4)))
      norm_num
    rw [if_neg hcond] at hcalls
    simp only [modelCallsOf, hok, Except.toOption, Option.map_some', hcalls]

/-- A due turn whose consolidation call fails twice (signal never
aborted). -/
def c4inp : TurnInputs :=
  { template := { valueDefinitions := [c5def] },
    save := { id := "sC", templateId := "t1", title := "Run",
              values := [("hp", .scalar (.num 1))],
              memories := [{ id := "m1", text := "fact", tags := [],
                             createdAt := "t0", updatedAt := "t0" }],
              history := [c3step, c3step, c3step] },
    playerAction := "go",
    memoryTurnCount := some 4,
    result := { narrative := "n" },
    attempt1 := .err false,
    attempt2 := .err false,
    stepId := "step-C",
    nowMem1 := "t1c", nowStep := "t2c", nowMem2 := "t3c",
    fresh1 := fun _ => "uA", fresh2 := fun _ => "uB" }

/-- C4 witness: the retry theorem instantiated at a due turn with two
failures — two calls, one 750 ms backoff, and the turn persists the
un-consolidated memories with the cursor unchanged. -/
theorem C4_witness :
    (c4inp.save.lastMemoryOverviewAtHistoryLen ≤ c4inp.save.history.length ∧
      shouldRunOverviewB c4inp = true ∧ c4inp.attempt1 = .err false) ∧
    modelCallsOf (mutationFnModel c4inp) = some 2 ∧
    modelWaitsOf (mutationFnModel c4inp) = some [750] ∧
    modelCursorOf (mutationFnModel c4inp) = some 0 ∧
    modelMemoriesOf (mutationFnModel c4inp) = some (memoriesAfterTurn c4inp) := by
  refine ⟨⟨by decide, by decide, rfl⟩, ?_⟩
  obtain ⟨out, hok, hcalls, hwaits, herr, -⟩ :=
    (C4_overview_retry c4inp (by decide) (by decide)).1 rfl
  obtain ⟨hmems, hcursor, -, -⟩ := herr false rfl
  refine ⟨?_, ?_, ?_, ?_⟩
  · simp only [modelCallsOf, hok, Except.toOption, Option.map_some', hcalls]
  · simp only [modelWaitsOf, hok, Except.toOption, Option.map_some', hwaits]
  · simp only [modelCursorOf, hok, Except.toOption, Option.map_some', hcursor]
    rfl
  · simp only [modelMemoriesOf, hok, Except.toOption, Option.map_some', hmems]

end QuestAIsle
